import Mathlib

/-
Verification of the quai-node block-acceptance core: the hierarchical
location coordinate algebra and address-to-shard binding (common/types.go),
the block structural and post-execution validators, and the gas-limit
adjustment function (core block_validator file).

Shallow embedding conventions:
* 32-byte digests (Hash) and opaque encodable items (transactions, uncle
  headers, manifest entries) are modelled as Nat values; only equality of
  digests matters to the validators.
* Go byte values are modelled as Nat (the source never relies on byte
  overflow in the parts embedded here; where uint64 wraparound matters,
  in CalcGasLimit and in block-number decrement, it is modelled explicitly
  with % U64).
* External collaborators (availability oracle, trie-root computation,
  consensus engine uncle check, bloom computation, rollup collection) are
  fields of an Env record, exactly the interfaces the validator consumes.
* log.Fatal branches (process-level invariant violations) are modelled by
  Option results (none = fatal) where reachable, and by validity side
  predicates where the claims quantify over non-fatal inputs.
-/

namespace Quai

/-! ## Constants from common/types.go -/

def HashLength : Nat := 32

def AddressLength : Nat := 20

/-- Context indices: PRIME_CTX = 0, REGION_CTX = 1, ZONE_CTX = 2. -/
def PRIME_CTX : Nat := 0

def REGION_CTX : Nat := 1

def ZONE_CTX : Nat := 2

def NumRegionsInPrime : Nat := 3

def NumZonesInRegion : Nat := 3

def HierarchyDepth : Nat := 3

/-- 2^64, the modulus of Go's uint64 arithmetic. -/
def U64 : Nat := 18446744073709551616

/-- Go uint64 decrement `n - 1` with wraparound (used for block.NumberU64()-1). -/
def u64decr (n : Nat) : Nat := (n + (U64 - 1)) % U64

/-! ## Address and Location (common/types.go) -/

/-- Address is a 20 byte account identifier; bytes indexed 0..19. -/
structure Address where
  bytes : Fin AddressLength → Nat

/-- First byte of the address (the source reads `a[0]` for shard binding). -/
def Address.firstByte (a : Address) : Nat := a.bytes ⟨0, by decide⟩

/-- The zero address: BytesToAddress([]byte{0}) left-pads with zeros, giving
twenty zero bytes. -/
def ZeroAddr : Address := ⟨fun _ => 0⟩

/-- Location is a path of 0-2 byte coordinates from the root of the chain
hierarchy (`type Location []byte`). -/
abbrev Location := List Nat

/-- `func (loc Location) Region() int`: the coordinate at index
REGION_CTX-1 = 0 when present, else -1. -/
def Location.Region (loc : Location) : Int :=
  if 1 ≤ loc.length then (loc.getD (REGION_CTX - 1) 0 : Nat) else -1

/-- `func (loc Location) Zone() int`: the coordinate at index
ZONE_CTX-1 = 1 when present, else -1. -/
def Location.Zone (loc : Location) : Int :=
  if 2 ≤ loc.length then (loc.getD (ZONE_CTX - 1) 0 : Nat) else -1

def Location.HasRegion (loc : Location) : Bool := decide (0 ≤ Location.Region loc)

def Location.HasZone (loc : Location) : Bool := decide (0 ≤ Location.Zone loc)

/-- The conditions under which `AssertValid` does NOT hit a `log.Fatal`
branch: region present whenever zone is, and both indices below the
branching factors. -/
def Location.assertValidOK (loc : Location) : Prop :=
  ¬(Location.HasRegion loc = false ∧ Location.HasZone loc = true) ∧
  Location.Region loc < (NumRegionsInPrime : Int) ∧
  Location.Zone loc < (NumZonesInRegion : Int)

instance (loc : Location) : Decidable (Location.assertValidOK loc) := by
  unfold Location.assertValidOK; infer_instance

/-- `func (loc Location) Context() int` (the tier classifier); the source
first runs AssertValid, whose non-fatality is the separate predicate
`Location.assertValidOK`. -/
def Location.Context (loc : Location) : Nat :=
  if 0 ≤ Location.Zone loc then ZONE_CTX
  else if 0 ≤ Location.Region loc then REGION_CTX
  else PRIME_CTX

/-- `func (loc Location) DomLocation() Location`: drop the last coordinate
(nil for the empty location). -/
def Location.DomLocation (loc : Location) : Location :=
  if loc.length < 1 then [] else loc.dropLast

/-- `func (loc Location) SubInSlice(slice Location) Location`: nil when the
slice is not deeper than loc, else loc extended by slice's coordinate at
position len(loc). -/
def Location.SubInSlice (loc slice : Location) : Location :=
  if slice.length ≤ loc.length then []
  else loc ++ [slice.getD loc.length 0]

/-- `func (loc Location) InSameSliceAs(cmp Location) bool`: compare the
shorter of the two against the longer truncated to the shorter's length. -/
def Location.InSameSliceAs (loc cmp : Location) : Bool :=
  if cmp.length < loc.length then decide (cmp = loc.take cmp.length)
  else decide (loc = cmp.take loc.length)

/-- `func (loc Location) Name() string`. -/
def Location.Name (loc : Location) : String :=
  let regionName :=
    if Location.Region loc = 0 then "cyprus"
    else if Location.Region loc = 1 then "paxos"
    else if Location.Region loc = 2 then "hydra"
    else "unknownregion"
  let zoneNum := toString (Location.Zone loc + 1)
  if Location.Context loc = PRIME_CTX then "prime"
  else if Location.Context loc = REGION_CTX then regionName
  else if Location.Context loc = ZONE_CTX then regionName ++ zoneNum
  else "invalid-location"

/-- `func (loc Location) CommonDom(cmp Location) Location`: the source loops
over indices up to the shorter length, appending while coordinates agree and
breaking at the first disagreement; structurally this is the recursion
below. -/
def Location.CommonDom : Location → Location → Location
  | x :: xs, y :: ys => if x = y then x :: Location.CommonDom xs ys else []
  | _, _ => []

/-- The static partition table built by `init()`: leaf/mid/top chain name to
inclusive first-byte range. -/
def locationToPrefixRange (name : String) : Option (Nat × Nat) :=
  if name = "prime" then some (0, 9)
  else if name = "cyprus" then some (10, 19)
  else if name = "cyprus1" then some (20, 29)
  else if name = "cyprus2" then some (30, 39)
  else if name = "cyprus3" then some (40, 49)
  else if name = "paxos" then some (50, 59)
  else if name = "paxos1" then some (60, 69)
  else if name = "paxos2" then some (70, 79)
  else if name = "paxos3" then some (80, 89)
  else if name = "hydra" then some (90, 99)
  else if name = "hydra1" then some (100, 109)
  else if name = "hydra2" then some (110, 119)
  else if name = "hydra3" then some (120, 129)
  else none

/-- `func (l Location) ContainsAddress(a Address) bool`: inclusive range
test on the first byte; `none` models the `log.Fatal` taken when the
location's name has no registered range. -/
def Location.ContainsAddress (l : Location) (a : Address) : Option Bool :=
  match locationToPrefixRange (Location.Name l) with
  | none => none
  | some r => some (decide (r.1 ≤ a.firstByte ∧ a.firstByte ≤ r.2))

/-- The sequence of locations probed by `Address.Location()`, in source
order: for each r = 0,1,2 the three zones `{(r+R)%D, (z+Z)%D}` for
z = 0,1,2, then the region `{(r+R)%D}`, and the prime location once on the
first pass (the `primeChecked` flag). -/
def addrLocCandidates (R Z : Nat) : List Location :=
  (List.range NumRegionsInPrime).flatMap fun r =>
    ((List.range NumZonesInRegion).map fun z =>
      [(r + R) % HierarchyDepth, (z + Z) % HierarchyDepth])
    ++ [[(r + R) % HierarchyDepth]]
    ++ (if r = 0 then [([] : Location)] else [])

/-- `func (a Address) Location() *Location`: the node's own location (the
process-wide NodeLocation global) is passed explicitly; R and Z default to
0 when the node location lacks the corresponding coordinate. Returns the
first probed location that contains the address, else none (nil). -/
def Address.Location (nodeLocation : Location) (a : Address) : Option Quai.Location :=
  (addrLocCandidates
      (if Location.HasRegion nodeLocation then (Location.Region nodeLocation).toNat else 0)
      (if Location.HasZone nodeLocation then (Location.Zone nodeLocation).toNat else 0)).find?
    fun l => Location.ContainsAddress l a == some true

/-! ## Derived characterization helpers for the address partition -/

/-- All thirteen registered locations (top, the three mids, the nine
leaves). -/
def allLocations : List Location :=
  [[], [0], [0, 0], [0, 1], [0, 2], [1], [1, 0], [1, 1], [1, 2],
   [2], [2, 0], [2, 1], [2, 2]]

/-- Registered first-byte range of each registered location (mirrors the
name-keyed table, keyed by coordinates). -/
def rangeTable : Location → Nat × Nat
  | [] => (0, 9)
  | [0] => (10, 19)
  | [0, 0] => (20, 29)
  | [0, 1] => (30, 39)
  | [0, 2] => (40, 49)
  | [1] => (50, 59)
  | [1, 0] => (60, 69)
  | [1, 1] => (70, 79)
  | [1, 2] => (80, 89)
  | [2] => (90, 99)
  | [2, 0] => (100, 109)
  | [2, 1] => (110, 119)
  | [2, 2] => (120, 129)
  | _ => (0, 0)

/-- The registered location owning the d-th decade of first-byte values
(d = 0..12); the registered ranges are exactly the decades [10d, 10d+9]. -/
def decadeLoc : Nat → Location
  | 0 => []
  | 1 => [0]
  | 2 => [0, 0]
  | 3 => [0, 1]
  | 4 => [0, 2]
  | 5 => [1]
  | 6 => [1, 0]
  | 7 => [1, 1]
  | 8 => [1, 2]
  | 9 => [2]
  | 10 => [2, 0]
  | 11 => [2, 1]
  | 12 => [2, 2]
  | _ => []

/-- The partition function the search provably implements: map a first byte
to the unique registered location whose range contains it. -/
def resolveFirstByte (b : Nat) : Option Location :=
  if b < 130 then some (decadeLoc (b / 10)) else none

/-- The nine leaf locations with their registered ranges. -/
def leafRanges : List (Location × Nat × Nat) :=
  [([0, 0], 20, 29), ([0, 1], 30, 39), ([0, 2], 40, 49),
   ([1, 0], 60, 69), ([1, 1], 70, 79), ([1, 2], 80, 89),
   ([2, 0], 100, 109), ([2, 1], 110, 119), ([2, 2], 120, 129)]

/-! ## Blocks, validators (core block validator source file) -/

/-- Header fields consumed by the validators; digests are Nat. The manifest
root is a per-context slot (`header.ManifestHash(ctx)`). -/
structure Header where
  uncleHash : Nat
  txHash : Nat
  etxHash : Nat
  manifestHash : Nat → Nat
  receiptHash : Nat
  bloom : Nat
  root : Nat
  gasUsed : Nat
  etxRollupHash : Nat

/-- The parts of a block the validators read. -/
structure Block where
  hash : Nat
  number : Nat
  parentHash : Nat
  header : Header
  uncles : List Nat
  transactions : List Nat
  extTransactions : List Nat
  subManifest : List Nat

/-- Receipt: execution status plus the external transactions it emitted. -/
structure Receipt where
  status : Nat
  etxs : List Nat

/-- Modelled from the spec: types.ReceiptStatusSuccessful (the types package
is not under src); the concrete value is irrelevant to the claims, only
equality with Receipt.status matters. -/
def ReceiptStatusSuccessful : Nat := 1

/-- External collaborators of the validators: the availability oracle
(HasBlockAndState / HasBlock by digest and number), the consensus engine's
uncle verification, trie-root derivation (DeriveSha) for encodable lists
and for receipt lists, bloom computation, the empty-trie sentinel root, and
the ETX rollup collector. -/
structure Env where
  hasBlockAndState : Nat → Nat → Bool
  hasBlock : Nat → Nat → Bool
  verifyUncles : Block → Bool
  calcUncleHash : List Nat → Nat
  deriveSha : List Nat → Nat
  deriveReceiptsSha : List Receipt → Nat
  createBloom : List Receipt → Nat
  emptyRootHash : Nat
  collectEtxRollup : Block → Option (List Nat)

/-- Machine-distinguishable outcomes of ValidateBody. `engineFailure`
stands for any error propagated unchanged from the consensus engine. -/
inductive BodyError where
  | alreadyKnown
  | engineFailure
  | uncleRootMismatch
  | txRootMismatch
  | etxRootMismatch
  | badSubManifest
  | unknownAncestor
  | prunedAncestor
deriving DecidableEq

/-- `func (v *BlockValidator) ValidateBody(block *types.Block) error`,
checks in source order; none = success. -/
def ValidateBody (env : Env) (nodeCtx : Nat) (b : Block) : Option BodyError :=
  if env.hasBlockAndState b.hash b.number then some .alreadyKnown
  else if env.verifyUncles b = false then some .engineFailure
  else if env.calcUncleHash b.uncles ≠ b.header.uncleHash then some .uncleRootMismatch
  else if env.deriveSha b.transactions ≠ b.header.txHash then some .txRootMismatch
  else if env.deriveSha b.extTransactions ≠ b.header.etxHash then some .etxRootMismatch
  else if nodeCtx < ZONE_CTX ∧
      (env.deriveSha b.subManifest = env.emptyRootHash ∨
       env.deriveSha b.subManifest ≠ b.header.manifestHash (nodeCtx + 1)) then
    some .badSubManifest
  else if env.hasBlockAndState b.parentHash (u64decr b.number) = false then
    if env.hasBlock b.parentHash (u64decr b.number) = false then some .unknownAncestor
    else some .prunedAncestor
  else none

/-- The checks of ValidateBody that run after the known-block short circuit
and before the sub-manifest check, all passing. -/
def preManifestChecksPass (env : Env) (b : Block) : Prop :=
  env.verifyUncles b = true ∧
  env.calcUncleHash b.uncles = b.header.uncleHash ∧
  env.deriveSha b.transactions = b.header.txHash ∧
  env.deriveSha b.extTransactions = b.header.etxHash

/-- All structural checks before the ancestor check passing (uncle engine
check, the three root checks, and the sub-manifest check when the node is
above leaf tier). -/
def structuralChecksPass (env : Env) (nodeCtx : Nat) (b : Block) : Prop :=
  preManifestChecksPass env b ∧
  (nodeCtx < ZONE_CTX →
    env.deriveSha b.subManifest ≠ env.emptyRootHash ∧
    env.deriveSha b.subManifest = b.header.manifestHash (nodeCtx + 1))

instance (env : Env) (b : Block) : Decidable (preManifestChecksPass env b) := by
  unfold preManifestChecksPass; infer_instance

instance (env : Env) (nodeCtx : Nat) (b : Block) :
    Decidable (structuralChecksPass env nodeCtx b) := by
  unfold structuralChecksPass preManifestChecksPass; infer_instance

/-- Machine-distinguishable outcomes of ValidateState. -/
inductive StateError where
  | gasMismatch
  | bloomMismatch
  | receiptRootMismatch
  | stateRootComputation
  | stateRootMismatch
  | etxEmissionMismatch
  | rollupUnavailable
  | rollupRootMismatch
deriving DecidableEq

/-- The `emittedEtxs` accumulation loop of ValidateState: append, in receipt
order, the etxs of each receipt whose status is successful. -/
def emittedEtxs (receipts : List Receipt) : List Nat :=
  receipts.foldl
    (fun acc r => if r.status = ReceiptStatusSuccessful then acc ++ r.etxs else acc) []

/-- `func (v *BlockValidator) ValidateState(...) error`; `stateRoot` is the
outcome of statedb.IntermediateRoot (none = underlying store error, which
the source propagates before reporting a root mismatch). -/
def ValidateState (env : Env) (b : Block) (stateRoot : Option Nat)
    (receipts : List Receipt) (usedGas : Nat) : Option StateError :=
  if b.header.gasUsed ≠ usedGas then some .gasMismatch
  else if env.createBloom receipts ≠ b.header.bloom then some .bloomMismatch
  else if env.deriveReceiptsSha receipts ≠ b.header.receiptHash then some .receiptRootMismatch
  else
    match stateRoot with
    | none => some .stateRootComputation
    | some root =>
      if b.header.root ≠ root then some .stateRootMismatch
      else if env.deriveSha (emittedEtxs receipts) ≠ b.header.etxHash then
        some .etxEmissionMismatch
      else
        match env.collectEtxRollup b with
        | none => some .rollupUnavailable
        | some rollup =>
          if env.deriveSha rollup ≠ b.header.etxRollupHash then some .rollupRootMismatch
          else none

/-! ## Gas limit adjustment -/

/-- Modelled from the spec: params.GasLimitBoundDivisor (the params package
is not under src); the spec fixes BOUND_DIVISOR = 1024. -/
def GasLimitBoundDivisor : Nat := 1024

/-- Modelled from the spec: params.MinGasLimit (the params package is not
under src); the spec names MIN_GAS_LIMIT without a value, 5000 is the
go-ethereum-lineage constant of the reference deployment. -/
def MinGasLimit : Nat := 5000

/-- `func CalcGasLimit(parentGasLimit, desiredLimit uint64) uint64`, with
Go's uint64 wraparound made explicit: `delta = parentGasLimit/1024 - 1` can
underflow and `parentGasLimit + delta` can overflow, both modulo 2^64. -/
def CalcGasLimit (parentGasLimit desiredLimit : Nat) : Nat :=
  let delta := (parentGasLimit / GasLimitBoundDivisor + (U64 - 1)) % U64
  let desired := if desiredLimit < MinGasLimit then MinGasLimit else desiredLimit
  if parentGasLimit < desired then
    let limit := (parentGasLimit + delta) % U64
    if desired < limit then desired else limit
  else if desired < parentGasLimit then
    let limit := (parentGasLimit + (U64 - delta)) % U64
    if limit < desired then desired else limit
  else parentGasLimit

/-! ## Concrete inputs used by witnesses and counterexamples -/

/-- An environment in which every collaborator is deterministic and the
oracles report nothing known: digests are list lengths, the empty-list
sentinel root is 0. -/
def envW : Env where
  hasBlockAndState := fun _ _ => false
  hasBlock := fun _ _ => false
  verifyUncles := fun _ => true
  calcUncleHash := fun l => l.length
  deriveSha := fun l => l.length
  deriveReceiptsSha := fun l => l.length
  createBloom := fun l => l.length
  emptyRootHash := 0
  collectEtxRollup := fun _ => some []

/-- A block that is internally consistent under `envW`, with a non-empty
sub-manifest whose derived root (1) matches the subordinate manifest slot. -/
def blockW : Block where
  hash := 1
  number := 5
  parentHash := 2
  header :=
    { uncleHash := 0, txHash := 0, etxHash := 0, manifestHash := fun _ => 1,
      receiptHash := 0, bloom := 0, root := 7, gasUsed := 3, etxRollupHash := 0 }
  uncles := []
  transactions := []
  extTransactions := []
  subManifest := [9]

/-- A block for the state-validation witness: three receipts, two
successful, emitting two external transactions in total. -/
def blockW5 : Block where
  hash := 1
  number := 5
  parentHash := 2
  header :=
    { uncleHash := 0, txHash := 0, etxHash := 2, manifestHash := fun _ => 1,
      receiptHash := 3, bloom := 3, root := 7, gasUsed := 3, etxRollupHash := 0 }
  uncles := []
  transactions := []
  extTransactions := []
  subManifest := [9]

def receiptsW : List Receipt := [⟨1, [4]⟩, ⟨0, [5]⟩, ⟨1, [6]⟩]

/-- Address whose first byte is 10 (inside the cyprus region range). -/
def addrTen : Address := ⟨fun _ => 10⟩

/-- Address whose first byte is 25 (inside the cyprus1 leaf range). -/
def addr25 : Address := ⟨fun _ => 25⟩

/-- Address whose first byte is 35 (inside the cyprus2 leaf range). -/
def addr35 : Address := ⟨fun _ => 35⟩

/-- Address whose first byte is 15 (inside the cyprus region range). -/
def addr15 : Address := ⟨fun _ => 15⟩

/-! ## Helper lemmas: the address search implements the partition table -/

lemma someBeq (p : Bool) : ((some p == some true) : Bool) = p := by
  cases p <;> rfl

lemma find?_eq_some_of_unique {α : Type} {p : α → Bool} {x : α} :
    ∀ {l : List α}, x ∈ l → p x = true → (∀ y ∈ l, p y = true → y = x) →
      l.find? p = some x := by
  intro l
  induction l with
  | nil => intro h; simp at h
  | cons hd tl ih =>
    intro hmem hpx huniq
    by_cases hhd : p hd = true
    · have hdx : hd = x := huniq hd (List.mem_cons_self hd tl) hhd
      subst hdx
      simp [List.find?_cons, hhd]
    · have hx : x ∈ tl := by
        rcases List.mem_cons.mp hmem with h | h
        · exact absurd (h ▸ hpx) hhd
        · exact h
      have hfind := ih hx hpx (fun y hy => huniq y (List.mem_cons_of_mem hd hy))
      simp only [List.find?_cons]
      rw [Bool.not_eq_true] at hhd
      rw [hhd]
      exact hfind

/-- Each registered location's ContainsAddress is the range test of its
rangeTable entry. -/
lemma contains_mem (l : Location) (hl : l ∈ allLocations) (a : Address) :
    Location.ContainsAddress l a =
      some (decide ((rangeTable l).1 ≤ a.firstByte ∧ a.firstByte ≤ (rangeTable l).2)) := by
  simp only [allLocations, List.mem_cons, List.not_mem_nil, or_false] at hl
  rcases hl with rfl | rfl | rfl | rfl | rfl | rfl | rfl | rfl | rfl | rfl | rfl | rfl | rfl <;>
    rfl

/-- Every registered location is a decade slot, and its registered range is
exactly its decade. -/
lemma mem_decade (l : Location) (hl : l ∈ allLocations) :
    ∃ d, d < 13 ∧ decadeLoc d = l ∧ rangeTable l = (10 * d, 10 * d + 9) := by
  simp only [allLocations, List.mem_cons, List.not_mem_nil, or_false] at hl
  rcases hl with rfl | rfl | rfl | rfl | rfl | rfl | rfl | rfl | rfl | rfl | rfl | rfl | rfl
  · exact ⟨0, by omega, rfl, rfl⟩
  · exact ⟨1, by omega, rfl, rfl⟩
  · exact ⟨2, by omega, rfl, rfl⟩
  · exact ⟨3, by omega, rfl, rfl⟩
  · exact ⟨4, by omega, rfl, rfl⟩
  · exact ⟨5, by omega, rfl, rfl⟩
  · exact ⟨6, by omega, rfl, rfl⟩
  · exact ⟨7, by omega, rfl, rfl⟩
  · exact ⟨8, by omega, rfl, rfl⟩
  · exact ⟨9, by omega, rfl, rfl⟩
  · exact ⟨10, by omega, rfl, rfl⟩
  · exact ⟨11, by omega, rfl, rfl⟩
  · exact ⟨12, by omega, rfl, rfl⟩

lemma decadeLoc_mem (d : Nat) (hd : d < 13) : decadeLoc d ∈ allLocations := by
  interval_cases d <;> decide

lemma rangeTable_decadeLoc (d : Nat) (hd : d < 13) :
    rangeTable (decadeLoc d) = (10 * d, 10 * d + 9) := by
  interval_cases d <;> rfl

lemma range_hi_le (l : Location) (hl : l ∈ allLocations) : (rangeTable l).2 ≤ 129 := by
  obtain ⟨d, hd, _, hr⟩ := mem_decade l hl
  rw [hr]
  simp only
  omega

lemma resolve_none {b : Nat} : resolveFirstByte b = none ↔ 130 ≤ b := by
  unfold resolveFirstByte
  split_ifs with h
  · simp only [reduceCtorEq, false_iff]
    omega
  · simp only [true_iff]
    omega

lemma resolve_some {b : Nat} {l : Location} (h : resolveFirstByte b = some l) :
    l ∈ allLocations ∧ (rangeTable l).1 ≤ b ∧ b ≤ (rangeTable l).2 := by
  unfold resolveFirstByte at h
  split_ifs at h with hb
  · obtain rfl : decadeLoc (b / 10) = l := Option.some.inj h
    have hd : b / 10 < 13 := by omega
    have hr := rangeTable_decadeLoc (b / 10) hd
    exact ⟨decadeLoc_mem _ hd, by rw [hr]; simp only; omega, by rw [hr]; simp only; omega⟩

lemma contains_resolve {b : Nat} {l : Location} (hl : l ∈ allLocations)
    (h1 : (rangeTable l).1 ≤ b) (h2 : b ≤ (rangeTable l).2) :
    resolveFirstByte b = some l := by
  obtain ⟨d, hd, rfl, hr⟩ := mem_decade l hl
  rw [hr] at h1 h2
  simp only at h1 h2
  unfold resolveFirstByte
  rw [if_pos (by omega), show b / 10 = d from by omega]

/-- Any probe list containing exactly the registered locations finds the
partition entry of the first byte, whatever the probe order. -/
lemma find?_cands (a : Address) (cands : List Location)
    (hsub : ∀ l ∈ cands, l ∈ allLocations)
    (hmem : ∀ l ∈ allLocations, l ∈ cands) :
    (cands.find? fun l => Location.ContainsAddress l a == some true) =
      resolveFirstByte a.firstByte := by
  rcases hres : resolveFirstByte a.firstByte with _ | x
  · have hb : 130 ≤ a.firstByte := resolve_none.mp hres
    apply List.find?_eq_none.mpr
    intro l hl
    have hlA := hsub l hl
    rw [contains_mem l hlA a, someBeq]
    have := range_hi_le l hlA
    simp only [decide_eq_true_eq]
    omega
  · obtain ⟨hxA, h1, h2⟩ := resolve_some hres
    apply find?_eq_some_of_unique (hmem x hxA)
    · rw [contains_mem x hxA a, someBeq]
      simp only [decide_eq_true_eq]
      exact ⟨h1, h2⟩
    · intro y hy hpy
      have hyA := hsub y hy
      rw [contains_mem y hyA a, someBeq] at hpy
      simp only [decide_eq_true_eq] at hpy
      have hres2 := contains_resolve hyA hpy.1 hpy.2
      rw [hres] at hres2
      exact (Option.some.inj hres2).symm

/-- The probe order only depends on the node coordinates modulo the
hierarchy depth. -/
lemma addrLocCandidates_mod (R Z : Nat) :
    addrLocCandidates R Z = addrLocCandidates (R % 3) (Z % 3) := by
  have r0 : (0 + R) % 3 = (0 + R % 3) % 3 := by omega
  have r1 : (1 + R) % 3 = (1 + R % 3) % 3 := by omega
  have r2 : (2 + R) % 3 = (2 + R % 3) % 3 := by omega
  have z0 : (0 + Z) % 3 = (0 + Z % 3) % 3 := by omega
  have z1 : (1 + Z) % 3 = (1 + Z % 3) % 3 := by omega
  have z2 : (2 + Z) % 3 = (2 + Z % 3) % 3 := by omega
  simp only [addrLocCandidates, NumRegionsInPrime, NumZonesInRegion, HierarchyDepth,
    show List.range 3 = [0, 1, 2] from rfl, List.flatMap_cons, List.flatMap_nil,
    List.map_cons, List.map_nil]
  simp only [r0, r1, r2, z0, z1, z2]

/-- Whatever the node coordinates, the probe list is exactly the thirteen
registered locations (in some order). -/
lemma cands_sub_mem (R Z : Nat) :
    (∀ l ∈ addrLocCandidates R Z, l ∈ allLocations) ∧
    (∀ l ∈ allLocations, l ∈ addrLocCandidates R Z) := by
  rw [addrLocCandidates_mod]
  have hR : R % 3 = 0 ∨ R % 3 = 1 ∨ R % 3 = 2 := by omega
  have hZ : Z % 3 = 0 ∨ Z % 3 = 1 ∨ Z % 3 = 2 := by omega
  rcases hR with h | h | h <;> rcases hZ with h2 | h2 | h2 <;> rw [h, h2] <;>
    exact ⟨by decide, by decide⟩

/-- The address-to-shard search is, for every node location, the partition
lookup on the address's first byte. -/
lemma address_location_eq_resolve (nodeLoc : Location) (a : Address) :
    Address.Location nodeLoc a = resolveFirstByte a.firstByte :=
  find?_cands a _ (cands_sub_mem _ _).1 (cands_sub_mem _ _).2

/-! ## Helper lemmas: CommonDom is the longest common prefix -/

lemma commonDom_comm (a b : Location) :
    Location.CommonDom a b = Location.CommonDom b a := by
  induction a generalizing b with
  | nil => cases b <;> rfl
  | cons x xs ih =>
    cases b with
    | nil => rfl
    | cons y ys =>
      by_cases h : x = y
      · subst h
        simp [Location.CommonDom, ih ys]
      · have h2 : ¬(y = x) := fun hh => h hh.symm
        simp [Location.CommonDom, h, h2]

lemma commonDom_length (a b : Location) :
    (Location.CommonDom a b).length ≤ min a.length b.length := by
  induction a generalizing b with
  | nil => cases b <;> simp [Location.CommonDom]
  | cons x xs ih =>
    cases b with
    | nil => simp [Location.CommonDom]
    | cons y ys =>
      by_cases h : x = y
      · subst h
        have := ih ys
        simp [Location.CommonDom]
        omega
      · simp [Location.CommonDom, h]

lemma commonDom_take (a b : Location) :
    a.take (Location.CommonDom a b).length = Location.CommonDom a b ∧
    b.take (Location.CommonDom a b).length = Location.CommonDom a b := by
  induction a generalizing b with
  | nil => cases b <;> simp [Location.CommonDom]
  | cons x xs ih =>
    cases b with
    | nil => simp [Location.CommonDom]
    | cons y ys =>
      by_cases h : x = y
      · subst h
        have := ih ys
        simp [Location.CommonDom, List.take_succ_cons]
        exact this
      · simp [Location.CommonDom, h]

lemma commonDom_longest (a b : Location) (n : Nat) (hna : n ≤ a.length)
    (hnb : n ≤ b.length) (hn : a.take n = b.take n) :
    n ≤ (Location.CommonDom a b).length := by
  induction a generalizing b n with
  | nil => simp at hna; omega
  | cons x xs ih =>
    cases b with
    | nil => simp at hnb; omega
    | cons y ys =>
      cases n with
      | zero => omega
      | succ m =>
        simp only [List.take_succ_cons, List.cons.injEq] at hn
        obtain ⟨rfl, hmt⟩ := hn
        simp only [List.length_cons] at hna hnb
        have := ih ys m (by omega) (by omega) hmt
        simp [Location.CommonDom]
        omega

lemma commonDom_eq_shorter (a b : Location) (h : a.length ≤ b.length) :
    Location.CommonDom a b = a ↔ b.take a.length = a := by
  induction a generalizing b with
  | nil => simp [Location.CommonDom]
  | cons x xs ih =>
    cases b with
    | nil => simp at h
    | cons y ys =>
      simp only [List.length_cons] at h
      by_cases hxy : x = y
      · subst hxy
        simp [Location.CommonDom, List.take_succ_cons]
        exact ih ys (by omega)
      · have h2 : ¬(y = x) := fun hh => hxy hh.symm
        simp [Location.CommonDom, List.take_succ_cons, hxy, h2]

/-! ## Helper lemmas: InSameSliceAs -/

lemma inSameSlice_refl (a : Location) : Location.InSameSliceAs a a = true := by
  simp [Location.InSameSliceAs]

lemma inSameSlice_symm (a b : Location) :
    Location.InSameSliceAs a b = Location.InSameSliceAs b a := by
  unfold Location.InSameSliceAs
  rcases Nat.lt_trichotomy a.length b.length with h | h | h
  · rw [if_neg (by omega), if_pos h]
  · rw [if_neg (by omega), if_neg (by omega), h, List.take_length, ← h, List.take_length]
    exact decide_eq_decide.mpr eq_comm
  · rw [if_pos h, if_neg (by omega)]

lemma inSameSlice_prefix_iff (a b : Location) :
    Location.InSameSliceAs a b = true ↔
      (b.take a.length = a ∨ a.take b.length = b) := by
  unfold Location.InSameSliceAs
  split_ifs with h
  · simp only [decide_eq_true_eq]
    constructor
    · intro hb
      right
      exact hb.symm
    · rintro (hb | hb)
      · have := congrArg List.length hb
        simp [List.length_take] at this
        omega
      · exact hb.symm
  · simp only [decide_eq_true_eq]
    constructor
    · intro ha
      left
      exact ha.symm
    · rintro (ha | ha)
      · exact ha.symm
      · have hlen := congrArg List.length ha
        simp only [List.length_take] at hlen
        have heq : a.length = b.length := by omega
        rw [← heq, List.take_length] at ha
        rw [ha]
        exact (List.take_length b).symm

/-! ## Claim theorems -/

/-- C1 counterexample: the spec says Address.Location never returns a
mid-tier (region) location, but for an address with first byte 10 (which is
not the zero address) the search returns the cyprus region location [0],
whose tier is REGION_CTX. -/
theorem address_location_returns_midtier :
    Address.Location [] addrTen = some [0] ∧
    Location.Context [0] = REGION_CTX ∧
    REGION_CTX ≠ ZONE_CTX ∧
    addrTen.firstByte ≠ ZeroAddr.firstByte := by
  refine ⟨by decide, by decide, by decide, by decide⟩

/-- C1 amended: for every node location, Address.Location returns the
unique registered location (top, mid, or leaf) whose registered first-byte
range contains the address — the top range [0,9] containing in particular
the zero address — and none exactly when no registered range contains it;
mid-tier results do occur. -/
theorem address_location_partition (nodeLoc : Location) (a : Address) :
    (∀ l, Address.Location nodeLoc a = some l →
      l ∈ allLocations ∧ Location.ContainsAddress l a = some true ∧
      ∀ l2 ∈ allLocations, Location.ContainsAddress l2 a = some true → l2 = l) ∧
    (Address.Location nodeLoc a = none ↔
      ∀ l ∈ allLocations, Location.ContainsAddress l a ≠ some true) := by
  rw [address_location_eq_resolve]
  constructor
  · intro l hl
    obtain ⟨hmem, h1, h2⟩ := resolve_some hl
    refine ⟨hmem, ?_, ?_⟩
    · rw [contains_mem l hmem a]
      exact congrArg some (by simp only [decide_eq_true_eq]; exact ⟨h1, h2⟩)
    · intro l2 hmem2 hc2
      rw [contains_mem l2 hmem2 a] at hc2
      have hd2 := Option.some.inj hc2
      rw [decide_eq_true_eq] at hd2
      have hres := contains_resolve hmem2 hd2.1 hd2.2
      rw [hl] at hres
      exact (Option.some.inj hres).symm
  · constructor
    · intro hn l hlmem hc
      rw [contains_mem l hlmem a] at hc
      have hd := Option.some.inj hc
      rw [decide_eq_true_eq] at hd
      have hres := contains_resolve hlmem hd.1 hd.2
      rw [hn] at hres
      exact absurd hres (by simp)
    · intro hall
      rcases hres : resolveFirstByte a.firstByte with _ | x
      · rfl
      · obtain ⟨hmem, h1, h2⟩ := resolve_some hres
        have hx := hall x hmem
        rw [contains_mem x hmem a] at hx
        exact absurd (congrArg some (by simp only [decide_eq_true_eq]; exact ⟨h1, h2⟩)) hx

/-- C1 amended, witness: for the concrete address with first byte 35 the
search returns the unique containing registered location, cyprus2 = [0,1]. -/
theorem address_location_partition_witness :
    Address.Location [] addr35 = some [0, 1] ∧
    ([0, 1] : Location) ∈ allLocations ∧
    Location.ContainsAddress [0, 1] addr35 = some true ∧
    (∀ l2 ∈ allLocations, Location.ContainsAddress l2 addr35 = some true → l2 = [0, 1]) := by
  have h := (address_location_partition [] addr35).1 [0, 1] (by decide)
  exact ⟨by decide, h.1, h.2.1, h.2.2⟩

/-- C6: for every node location the zero address resolves to the top
location, and an address whose first byte lies in a leaf's registered
range resolves to exactly that leaf, which contains it. -/
theorem address_location_zero_and_leaf (nodeLoc : Location) (a : Address) :
    Address.Location nodeLoc ZeroAddr = some [] ∧
    (∀ leaf lo hi, (leaf, lo, hi) ∈ leafRanges → lo ≤ a.firstByte → a.firstByte ≤ hi →
      Address.Location nodeLoc a = some leaf ∧
      Location.ContainsAddress leaf a = some true) := by
  constructor
  · rw [address_location_eq_resolve]
    rfl
  · intro leaf lo hi hmem h1 h2
    rw [address_location_eq_resolve]
    simp only [leafRanges, List.mem_cons, List.not_mem_nil, or_false] at hmem
    rcases hmem with h | h | h | h | h | h | h | h | h <;>
      (rcases h with ⟨rfl, rfl, rfl⟩
       exact ⟨contains_resolve (by decide) h1 h2,
         by rw [contains_mem _ (by decide) a]
            exact congrArg some (by simp only [decide_eq_true_eq]; exact ⟨h1, h2⟩)⟩)

/-- C6 witness: the zero address and the concrete address with first
byte 25 (inside the cyprus1 = [0,0] leaf range). -/
theorem address_location_zero_and_leaf_witness :
    Address.Location [] ZeroAddr = some [] ∧
    (([0, 0], 20, 29) ∈ leafRanges ∧ 20 ≤ addr25.firstByte ∧ addr25.firstByte ≤ 29) ∧
    Address.Location [] addr25 = some [0, 0] ∧
    Location.ContainsAddress [0, 0] addr25 = some true := by
  have h := (address_location_zero_and_leaf [] addr25).2 [0, 0] 20 29
    (by decide) (by decide) (by decide)
  exact ⟨(address_location_zero_and_leaf [] addr25).1, ⟨by decide, by decide, by decide⟩,
    h.1, h.2⟩

/-- C10: for every node location, Address.Location returns the top location
for first bytes 0..9, the mid-tier region locations for the region ranges
10..19 (cyprus), 50..59 (paxos), 90..99 (hydra), and none exactly when the
first byte is 130 or greater. -/
theorem address_location_cover (nodeLoc : Location) (a : Address) :
    (a.firstByte ≤ 9 → Address.Location nodeLoc a = some []) ∧
    (10 ≤ a.firstByte → a.firstByte ≤ 19 → Address.Location nodeLoc a = some [0]) ∧
    (50 ≤ a.firstByte → a.firstByte ≤ 59 → Address.Location nodeLoc a = some [1]) ∧
    (90 ≤ a.firstByte → a.firstByte ≤ 99 → Address.Location nodeLoc a = some [2]) ∧
    (Location.Context [0] = REGION_CTX ∧ Location.Context [1] = REGION_CTX ∧
     Location.Context [2] = REGION_CTX) ∧
    (Address.Location nodeLoc a = none ↔ 130 ≤ a.firstByte) := by
  rw [address_location_eq_resolve]
  refine ⟨?_, ?_, ?_, ?_, ⟨by decide, by decide, by decide⟩, resolve_none⟩
  · intro h
    exact contains_resolve (l := ([] : Location)) (by decide) (Nat.zero_le _) h
  · intro h1 h2
    exact contains_resolve (l := ([0] : Location)) (by decide) h1 h2
  · intro h1 h2
    exact contains_resolve (l := ([1] : Location)) (by decide) h1 h2
  · intro h1 h2
    exact contains_resolve (l := ([2] : Location)) (by decide) h1 h2

/-- C10 witness: the concrete address with first byte 15 resolves to the
cyprus region location, and one with first byte 200 resolves to none. -/
theorem address_location_cover_witness :
    (10 ≤ addr15.firstByte ∧ addr15.firstByte ≤ 19) ∧
    Address.Location [] addr15 = some [0] := by
  exact ⟨⟨by decide, by decide⟩,
    (address_location_cover [] addr15).2.1 (by decide) (by decide)⟩

/-- C7 counterexample: SubInSlice only compares lengths, so it returns a
non-empty result for loc = [0], slice = [1,2] although [0] is not a prefix
of [1,2] — refuting "defined iff loc is a proper prefix of slice, not
merely shorter". -/
theorem subInSlice_not_prefix_counterexample :
    Location.SubInSlice [0] [1, 2] = [0, 2] ∧
    Location.SubInSlice [0] [1, 2] ≠ [] ∧
    ([1, 2] : Location).take 1 ≠ [0] := by
  refine ⟨by decide, by decide, by decide⟩

/-- C7 amended: SubInSlice is defined (non-empty) iff slice is strictly
deeper than loc (length comparison only, whether or not loc is a prefix of
slice); whenever defined, the result is loc extended by slice's coordinate
at position len(loc), so it has length len(loc)+1 and agrees with loc on
its first len(loc) coordinates; otherwise it returns empty. -/
theorem subInSlice_spec (loc slice : Location) :
    (Location.SubInSlice loc slice ≠ [] ↔ loc.length < slice.length) ∧
    (loc.length < slice.length →
      Location.SubInSlice loc slice = loc ++ [slice.getD loc.length 0] ∧
      (Location.SubInSlice loc slice).length = loc.length + 1 ∧
      (Location.SubInSlice loc slice).take loc.length = loc) ∧
    (slice.length ≤ loc.length → Location.SubInSlice loc slice = []) := by
  unfold Location.SubInSlice
  split_ifs with h
  · refine ⟨by simp; omega, fun hlt => absurd hlt (by omega), fun _ => rfl⟩
  · refine ⟨by simp; omega, fun hlt => ⟨rfl, by simp, ?_⟩, fun hle => absurd hle h⟩
    rw [show loc.length = (loc : List Nat).length from rfl, List.take_left]

/-- C7 amended, witness: loc = [0], slice = [0,1]. -/
theorem subInSlice_spec_witness :
    (([0] : Location).length < ([0, 1] : Location).length) ∧
    Location.SubInSlice [0] [0, 1] = [0] ++ [([0, 1] : Location).getD 1 0] ∧
    (Location.SubInSlice [0] [0, 1]).length = 2 ∧
    (Location.SubInSlice [0] [0, 1]).take 1 = [0] := by
  have h := (subInSlice_spec [0] [0, 1]).2.1 (by decide)
  exact ⟨by decide, h.1, h.2.1, h.2.2⟩

/-- C8: every location of length 0, 1, or 2 with coordinates below the
branching factor 3 passes AssertValid (no fatal branch), its
Context matches its length (PRIME_CTX = 0, REGION_CTX = 1, ZONE_CTX = 2),
and DomLocation of a length-2 leaf is the length-1 mid location made of the
leaf's first coordinate. -/
theorem location_context_matches_length (loc : Location)
    (hlen : loc.length ≤ 2) (hco : ∀ x ∈ loc, x < 3) :
    Location.assertValidOK loc ∧
    Location.Context loc = loc.length ∧
    (loc.length = 2 → Location.DomLocation loc = loc.take 1 ∧
      (Location.DomLocation loc).length = 1) := by
  rcases loc with _ | ⟨x, _ | ⟨y, _ | ⟨z, rest⟩⟩⟩
  · exact ⟨by decide, by decide, fun h => absurd h (by decide)⟩
  · have hx : x < 3 := hco x (by simp)
    have hr : Location.Region [x] = (x : Int) := rfl
    have hz : Location.Zone [x] = -1 := rfl
    refine ⟨⟨?_, ?_, ?_⟩, ?_, fun h => absurd h (by simp)⟩
    · intro hcon
      simp only [Location.HasZone, hz] at hcon
      exact absurd hcon.2 (by decide)
    · rw [hr]
      simp only [NumRegionsInPrime]
      omega
    · rw [hz]
      simp only [NumZonesInRegion]
      omega
    · unfold Location.Context
      rw [hz, if_neg (by decide), hr, if_pos (Int.natCast_nonneg x)]
      rfl
  · have hx : x < 3 := hco x (by simp)
    have hy : y < 3 := hco y (by simp)
    have hr : Location.Region [x, y] = (x : Int) := rfl
    have hz : Location.Zone [x, y] = (y : Int) := rfl
    refine ⟨⟨?_, ?_, ?_⟩, ?_, fun _ => ⟨rfl, rfl⟩⟩
    · intro hcon
      simp only [Location.HasRegion, hr] at hcon
      exact absurd hcon.1 (by simp)
    · rw [hr]
      simp only [NumRegionsInPrime]
      omega
    · rw [hz]
      simp only [NumZonesInRegion]
      omega
    · unfold Location.Context
      rw [hz, if_pos (Int.natCast_nonneg y)]
      rfl
  · exfalso
    simp at hlen

/-- C8 witness: the leaf location [1,2]. -/
theorem location_context_matches_length_witness :
    (([1, 2] : Location).length ≤ 2 ∧ ∀ x ∈ ([1, 2] : Location), x < 3) ∧
    Location.assertValidOK [1, 2] ∧
    Location.Context [1, 2] = 2 ∧
    Location.DomLocation [1, 2] = ([1, 2] : Location).take 1 ∧
    (Location.DomLocation [1, 2]).length = 1 := by
  have h := location_context_matches_length [1, 2] (by decide) (by decide)
  have h2 := h.2.2 (by decide)
  exact ⟨⟨by decide, by decide⟩, h.1, h.2.1, h2.1, h2.2⟩

/-- C9: InSameSliceAs is reflexive, symmetric, and true exactly when one
location's coordinates are a prefix of the other's; CommonDom is the
longest common coordinate prefix: its length is at most the minimum of the
two lengths, it is a prefix of both, no common prefix is longer, and it
equals the shorter location exactly when that location is a prefix of the
longer (proved for all locations, hence in particular all valid ones). -/
theorem location_slice_commonDom_spec (a b : Location) :
    Location.InSameSliceAs a a = true ∧
    Location.InSameSliceAs a b = Location.InSameSliceAs b a ∧
    (Location.InSameSliceAs a b = true ↔
      (b.take a.length = a ∨ a.take b.length = b)) ∧
    (Location.CommonDom a b).length ≤ min a.length b.length ∧
    a.take (Location.CommonDom a b).length = Location.CommonDom a b ∧
    b.take (Location.CommonDom a b).length = Location.CommonDom a b ∧
    (∀ n, n ≤ a.length → n ≤ b.length → a.take n = b.take n →
      n ≤ (Location.CommonDom a b).length) ∧
    (a.length ≤ b.length → (Location.CommonDom a b = a ↔ b.take a.length = a)) ∧
    (b.length ≤ a.length → (Location.CommonDom a b = b ↔ a.take b.length = b)) := by
  refine ⟨inSameSlice_refl a, inSameSlice_symm a b, inSameSlice_prefix_iff a b,
    commonDom_length a b, (commonDom_take a b).1, (commonDom_take a b).2,
    commonDom_longest a b, commonDom_eq_shorter a b, ?_⟩
  intro h
  rw [commonDom_comm]
  exact commonDom_eq_shorter b a h

/-- C9 witness: a = [0,1], b = [0] (so b is a prefix of a). -/
theorem location_slice_commonDom_spec_witness :
    (([0] : Location).length ≤ ([0, 1] : Location).length) ∧
    (Location.CommonDom [0, 1] [0] = [0] ↔ ([0, 1] : Location).take 1 = [0]) := by
  exact ⟨by decide,
    (location_slice_commonDom_spec [0, 1] [0]).2.2.2.2.2.2.2.2 (by decide)⟩

/-- C2 counterexample: the claim fails as stated. At parent = desired =
4000 (below MIN_GAS_LIMIT) the desired limit is clamped to 5000 and the
result is 4002, refuting idempotence at the fixed point. At parent = 2000,
desired = 5000 ≥ MIN_GAS_LIMIT the result 2000 is below MIN_GAS_LIMIT.
Near 2^64 the uint64 overflow of parent + delta moves the limit far
below the parent although the desired target is above it, refuting
monotone movement toward the target. -/
theorem calcGasLimit_counterexample :
    CalcGasLimit 4000 4000 = 4002 ∧
    MinGasLimit ≤ 5000 ∧ CalcGasLimit 2000 5000 = 2000 ∧
    CalcGasLimit 2000 5000 < MinGasLimit ∧
    U64 - 100 < U64 - 1 ∧
    CalcGasLimit (U64 - 100) (U64 - 1) < U64 - 100 := by
  refine ⟨by decide, by decide, by decide, by decide, by decide, by decide⟩

/-- C2 amended: restricted to parent and desired limits at least
MIN_GAS_LIMIT and to parents for which parent + parent/BOUND_DIVISOR does
not overflow uint64, CalcGasLimit is idempotent at the fixed point, moves
monotonically toward the desired target without overshoot or undershoot,
changes by at most parent/BOUND_DIVISOR per call, and never returns a value
below MIN_GAS_LIMIT. -/
theorem calcGasLimit_bounded_spec (p d : Nat)
    (hpmin : MinGasLimit ≤ p) (hdmin : MinGasLimit ≤ d)
    (hov : p + p / GasLimitBoundDivisor < U64) :
    (p = d → CalcGasLimit p d = p) ∧
    (p < d → p ≤ CalcGasLimit p d ∧ CalcGasLimit p d ≤ d) ∧
    (d < p → d ≤ CalcGasLimit p d ∧ CalcGasLimit p d ≤ p) ∧
    CalcGasLimit p d ≤ p + p / GasLimitBoundDivisor ∧
    p ≤ CalcGasLimit p d + p / GasLimitBoundDivisor ∧
    MinGasLimit ≤ CalcGasLimit p d := by
  simp only [CalcGasLimit, GasLimitBoundDivisor, MinGasLimit, U64] at *
  have hqp : p / 1024 ≤ p := Nat.div_le_self _ _
  have hq4 : 4 ≤ p / 1024 := by omega
  have hdelta : (p / 1024 + (18446744073709551616 - 1)) % 18446744073709551616 =
      p / 1024 - 1 := by omega
  rw [hdelta]
  have hadd : (p + (p / 1024 - 1)) % 18446744073709551616 = p + (p / 1024 - 1) := by omega
  have hsub : (p + (18446744073709551616 - (p / 1024 - 1))) % 18446744073709551616 =
      p - (p / 1024 - 1) := by omega
  rw [hadd, hsub]
  split_ifs <;> refine ⟨?_, ?_, ?_, ?_, ?_, ?_⟩ <;> intros <;> omega

/-- C2 amended, witness: parent 1,000,000 with desired 2,000,000 moves up
by delta = 1,000,000/1024 - 1 = 975. -/
theorem calcGasLimit_bounded_spec_witness :
    (MinGasLimit ≤ 1000000 ∧ MinGasLimit ≤ 2000000 ∧
     1000000 + 1000000 / GasLimitBoundDivisor < U64) ∧
    CalcGasLimit 1000000 2000000 = 1000975 ∧
    (1000000 < 2000000 →
      1000000 ≤ CalcGasLimit 1000000 2000000 ∧ CalcGasLimit 1000000 2000000 ≤ 2000000) ∧
    MinGasLimit ≤ CalcGasLimit 1000000 2000000 := by
  have h := calcGasLimit_bounded_spec 1000000 2000000 (by decide) (by decide) (by decide)
  exact ⟨⟨by decide, by decide, by decide⟩, by decide, h.2.1, h.2.2.2.2.2⟩

/-- C3: when the node is at leaf tier (ZONE_CTX) ValidateBody never returns
badSubManifest; whenever it does return badSubManifest the node is above
leaf tier and the recomputed sub-manifest root is the empty sentinel or
differs from the subordinate manifest slot; above leaf tier, once the
known-block short circuit and the earlier engine/root checks pass,
badSubManifest is returned exactly when that condition holds — in
particular always when the header's subordinate manifest slot is the empty
sentinel, whatever the body's manifest list. -/
theorem validateBody_subManifest_spec (env : Env) (nodeCtx : Nat) (b : Block) :
    (nodeCtx = ZONE_CTX → ValidateBody env nodeCtx b ≠ some BodyError.badSubManifest) ∧
    (ValidateBody env nodeCtx b = some BodyError.badSubManifest →
      nodeCtx < ZONE_CTX ∧
      (env.deriveSha b.subManifest = env.emptyRootHash ∨
       env.deriveSha b.subManifest ≠ b.header.manifestHash (nodeCtx + 1))) ∧
    (nodeCtx < ZONE_CTX →
      env.hasBlockAndState b.hash b.number = false →
      preManifestChecksPass env b →
      ((ValidateBody env nodeCtx b = some BodyError.badSubManifest ↔
        (env.deriveSha b.subManifest = env.emptyRootHash ∨
         env.deriveSha b.subManifest ≠ b.header.manifestHash (nodeCtx + 1))) ∧
       (b.header.manifestHash (nodeCtx + 1) = env.emptyRootHash →
        ValidateBody env nodeCtx b = some BodyError.badSubManifest))) := by
  refine ⟨?_, ?_, ?_⟩
  · intro hz hbad
    subst hz
    unfold ValidateBody at hbad
    split_ifs at hbad <;> simp_all
  · intro hbad
    unfold ValidateBody at hbad
    split_ifs at hbad with h1 h2 h3 h4 h5 h6 <;> simp_all
  · intro hlt hknown hpre
    obtain ⟨hu, huh, hth, heh⟩ := hpre
    have hiff : ValidateBody env nodeCtx b = some BodyError.badSubManifest ↔
        (env.deriveSha b.subManifest = env.emptyRootHash ∨
         env.deriveSha b.subManifest ≠ b.header.manifestHash (nodeCtx + 1)) := by
      unfold ValidateBody
      simp only [hknown, hu, huh, hth, heh, Bool.false_eq_true, if_false, ne_eq,
        not_true_eq_false, Bool.true_eq_false]
      by_cases hD : (env.deriveSha b.subManifest = env.emptyRootHash ∨
          env.deriveSha b.subManifest ≠ b.header.manifestHash (nodeCtx + 1))
      · rw [if_pos ⟨hlt, hD⟩]
        exact ⟨fun _ => hD, fun _ => rfl⟩
      · rw [if_neg (fun hc => hD hc.2)]
        constructor
        · intro hx
          exfalso
          split_ifs at hx <;> simp_all
        · intro hx
          exact absurd hx hD
    refine ⟨hiff, fun hslot => hiff.mpr ?_⟩
    by_cases hsm : env.deriveSha b.subManifest = env.emptyRootHash
    · exact Or.inl hsm
    · exact Or.inr (hslot ▸ hsm)

/-- C3 witness: the node at REGION_CTX with a consistent block (manifest
root 1 matching the subordinate slot, not the sentinel 0): the condition is
false and ValidateBody indeed does not return badSubManifest. -/
theorem validateBody_subManifest_spec_witness :
    (1 < ZONE_CTX ∧ envW.hasBlockAndState blockW.hash blockW.number = false ∧
     preManifestChecksPass envW blockW) ∧
    (ValidateBody envW 1 blockW = some BodyError.badSubManifest ↔
      (envW.deriveSha blockW.subManifest = envW.emptyRootHash ∨
       envW.deriveSha blockW.subManifest ≠ blockW.header.manifestHash 2)) := by
  have h := (validateBody_subManifest_spec envW 1 blockW).2.2 (by decide) (by decide) (by decide)
  exact ⟨⟨by decide, by decide, by decide⟩, h.1⟩

/-- C4: ValidateBody returns alreadyKnown exactly when the availability
oracle reports the block itself fully processed (this is the first check);
otherwise, once all structural checks pass, if the parent (by digest and
wrapped number-1) is not fully processed the result is unknownAncestor when
the parent header is unknown and prunedAncestor when it is known but its
state is absent; and whenever either ancestor error is returned, the block
was not already known, all structural checks passed, and the parent was not
fully processed. -/
theorem validateBody_ancestor_spec (env : Env) (nodeCtx : Nat) (b : Block) :
    (ValidateBody env nodeCtx b = some BodyError.alreadyKnown ↔
      env.hasBlockAndState b.hash b.number = true) ∧
    (env.hasBlockAndState b.hash b.number = false →
      structuralChecksPass env nodeCtx b →
      env.hasBlockAndState b.parentHash (u64decr b.number) = false →
      ValidateBody env nodeCtx b =
        (if env.hasBlock b.parentHash (u64decr b.number) = false then
          some BodyError.unknownAncestor
         else some BodyError.prunedAncestor)) ∧
    ((ValidateBody env nodeCtx b = some BodyError.unknownAncestor ∨
      ValidateBody env nodeCtx b = some BodyError.prunedAncestor) →
      env.hasBlockAndState b.hash b.number = false ∧
      structuralChecksPass env nodeCtx b ∧
      env.hasBlockAndState b.parentHash (u64decr b.number) = false) := by
  refine ⟨?_, ?_, ?_⟩
  · constructor
    · intro h
      unfold ValidateBody at h
      split_ifs at h <;> simp_all
    · intro h
      unfold ValidateBody
      simp [h]
  · intro hknown hstruct hparent
    obtain ⟨⟨hu, huh, hth, heh⟩, hman⟩ := hstruct
    have hnc : ¬(nodeCtx < ZONE_CTX ∧
        (env.deriveSha b.subManifest = env.emptyRootHash ∨
         env.deriveSha b.subManifest ≠ b.header.manifestHash (nodeCtx + 1))) := by
      intro hc
      obtain ⟨hm1, hm2⟩ := hman hc.1
      rcases hc.2 with hh | hh
      · exact hm1 hh
      · exact hh hm2
    unfold ValidateBody
    simp only [hknown, hu, huh, hth, heh, Bool.false_eq_true, if_false, ne_eq,
      not_true_eq_false, Bool.true_eq_false]
    rw [if_neg hnc, if_pos hparent]
  · intro hor
    unfold ValidateBody at hor
    unfold structuralChecksPass preManifestChecksPass
    split_ifs at hor with h1 h2 h3 h4 h5 h6 h7 h8
    · exact absurd hor (by simp)
    · exact absurd hor (by simp)
    · exact absurd hor (by simp)
    · exact absurd hor (by simp)
    · exact absurd hor (by simp)
    · exact absurd hor (by simp)
    · refine ⟨by simp_all, ⟨⟨by simp_all, by simp_all, by simp_all, by simp_all⟩, ?_⟩,
        by simp_all⟩
      intro hlt
      constructor
      · intro hempty
        exact h6 ⟨hlt, Or.inl hempty⟩
      · by_contra hne
        exact h6 ⟨hlt, Or.inr hne⟩
    · refine ⟨by simp_all, ⟨⟨by simp_all, by simp_all, by simp_all, by simp_all⟩, ?_⟩,
        by simp_all⟩
      intro hlt
      constructor
      · intro hempty
        exact h6 ⟨hlt, Or.inl hempty⟩
      · by_contra hne
        exact h6 ⟨hlt, Or.inr hne⟩
    · exact absurd hor (by simp)

/-- C4 witness: under envW nothing is known, so blockW (whose structural
checks pass at REGION_CTX) yields unknownAncestor. -/
theorem validateBody_ancestor_spec_witness :
    (envW.hasBlockAndState blockW.hash blockW.number = false ∧
     structuralChecksPass envW 1 blockW ∧
     envW.hasBlockAndState blockW.parentHash (u64decr blockW.number) = false) ∧
    ValidateBody envW 1 blockW =
      (if envW.hasBlock blockW.parentHash (u64decr blockW.number) = false then
        some BodyError.unknownAncestor
       else some BodyError.prunedAncestor) := by
  exact ⟨⟨by decide, by decide, by decide⟩,
    (validateBody_ancestor_spec envW 1 blockW).2.1 (by decide) (by decide) (by decide)⟩

/-- C5: the emitted-ETX list collected by ValidateState is exactly, in
receipt order, the external transactions of the successful receipts
(failed receipts contribute nothing); and once the gas, bloom, receipt-root
and state-root checks pass, ValidateState returns etxEmissionMismatch
exactly when the derived root of that list differs from the header's
external-transaction-root slot b.header.etxHash — the same header field
ValidateBody compares against the body's declared list. -/
theorem validateState_etxEmission_spec (env : Env) (b : Block) (stateRoot : Option Nat)
    (receipts : List Receipt) (usedGas : Nat)
    (hgas : b.header.gasUsed = usedGas)
    (hbloom : env.createBloom receipts = b.header.bloom)
    (hrec : env.deriveReceiptsSha receipts = b.header.receiptHash)
    (hroot : stateRoot = some b.header.root) :
    emittedEtxs receipts =
      (receipts.map fun r =>
        if r.status = ReceiptStatusSuccessful then r.etxs else []).flatten ∧
    (ValidateState env b stateRoot receipts usedGas = some StateError.etxEmissionMismatch ↔
      env.deriveSha (emittedEtxs receipts) ≠ b.header.etxHash) := by
  constructor
  · have key : ∀ (rs : List Receipt) (acc : List Nat),
        rs.foldl (fun acc r =>
          if r.status = ReceiptStatusSuccessful then acc ++ r.etxs else acc) acc =
        acc ++ (rs.map fun r =>
          if r.status = ReceiptStatusSuccessful then r.etxs else []).flatten := by
      intro rs
      induction rs with
      | nil => intro acc; simp
      | cons r t ih =>
        intro acc
        by_cases h : r.status = ReceiptStatusSuccessful
        · simp [h, ih, List.append_assoc]
        · simp [h, ih]
    unfold emittedEtxs
    rw [key receipts []]
    simp
  · subst hroot
    unfold ValidateState
    simp only [hgas, hbloom, hrec, ne_eq, eq_self_iff_true, not_true, if_false]
    by_cases hD : env.deriveSha (emittedEtxs receipts) = b.header.etxHash
    · rw [if_neg (by simp [hD])]
      simp only [hD, eq_self_iff_true, not_true, iff_false]
      rcases hrest : env.collectEtxRollup b with _ | rollup
      · simp
      · show ¬(if ¬env.deriveSha rollup = b.header.etxRollupHash then
            some StateError.rollupRootMismatch else none) = some StateError.etxEmissionMismatch
        split_ifs <;> simp
    · rw [if_pos hD]
      exact ⟨fun _ => hD, fun _ => rfl⟩

/-- C5 witness: three receipts, the failed middle one carrying etx 5 which
is excluded; the emitted list [4, 6] has derived root 2 = etxHash, so no
etxEmissionMismatch. -/
theorem validateState_etxEmission_spec_witness :
    (blockW5.header.gasUsed = 3 ∧ envW.createBloom receiptsW = blockW5.header.bloom ∧
     envW.deriveReceiptsSha receiptsW = blockW5.header.receiptHash) ∧
    emittedEtxs receiptsW =
      (receiptsW.map fun r =>
        if r.status = ReceiptStatusSuccessful then r.etxs else []).flatten ∧
    (ValidateState envW blockW5 (some blockW5.header.root) receiptsW 3 =
        some StateError.etxEmissionMismatch ↔
      envW.deriveSha (emittedEtxs receiptsW) ≠ blockW5.header.etxHash) := by
  have h := validateState_etxEmission_spec envW blockW5 (some blockW5.header.root)
    receiptsW 3 (by decide) (by decide) (by decide) rfl
  exact ⟨⟨by decide, by decide, by decide⟩, h.1, h.2⟩

end Quai
